import Mathlib

/-!
Shallow embedding of the segmentation-metrics evaluator of `engine.py`
(`val_one_epoch`, `test_one_epoch`, `test_all_images`).

Real-valued scores and losses are modelled as rationals; numpy arrays as
flat lists (a stack of batches flattened row-major is the concatenation of
the flattened batches); sklearn's `confusion_matrix` as a list-of-lists
count table; a Python exception / missing value as `Option.none`.
-/

namespace Engine

/-- Model output of the network: either a bare prediction array or a tuple
whose first element is the prediction array (`type(out) is tuple`). -/
inductive ModelOut where
  | single (arr : List ℚ)
  | tup (first : List ℚ) (rest : List (List ℚ))
deriving DecidableEq, Repr

/-- One batch as it arrives on the host side: the model output for the
batch, the flattened ground-truth mask, the scalar loss value produced by
the external criterion, and the sample identifier. -/
structure Batch where
  out : ModelOut
  gt : List ℚ
  lossVal : ℚ
  fileName : String
deriving DecidableEq, Repr

/-- Configuration surface consumed by the evaluator: the decision threshold
for predictions (`config.threshold`) and the validation cadence
(`config.val_interval`). -/
structure Config where
  threshold : ℚ
  val_interval : ℕ
deriving DecidableEq, Repr

/-- `np.where(values >= threshold, 1, 0)`: elementwise binarization. -/
def binarize (xs : List ℚ) (t : ℚ) : List ℕ :=
  xs.map fun x => if t ≤ x then 1 else 0

/-- `if type(out) is tuple: out = out[0]` — the unwrapping done in
`val_one_epoch` and `test_one_epoch`. -/
def unwrapOut : ModelOut → List ℚ
  | .single a => a
  | .tup a _ => a

/-- `out.squeeze(1)...` applied without a tuple check (`test_all_images`):
on a tuple this raises `AttributeError`, modelled as `none`. -/
def squeezeOut : ModelOut → Option (List ℚ)
  | .single a => some a
  | .tup _ _ => none

/-- `preds = np.array(preds).reshape(-1)` after appending the (unwrapped)
output of every batch: concatenation of the flattened batch predictions. -/
def pooledPreds (bs : List Batch) : List ℚ :=
  (bs.map fun b => unwrapOut b.out).flatten

/-- `gts = np.array(gts).reshape(-1)`: concatenation of the flattened
ground-truth masks of every batch. -/
def pooledGts (bs : List Batch) : List ℚ :=
  (bs.map Batch.gt).flatten

/-- `np.mean(loss_list)` (on a nonempty list; the empty case is the junk
value `0` here where numpy would produce NaN). -/
def listMean (l : List ℚ) : ℚ :=
  l.sum / (l.length : ℚ)

/-- Number of index pairs where the true sequence holds `i` and the
predicted sequence holds `j` — one cell of sklearn's confusion matrix. -/
def countPairs (y_true y_pred : List ℕ) (i j : ℕ) : ℕ :=
  ((y_true.zip y_pred).filter fun ab => ab.1 == i && ab.2 == j).length

/-- Sorted deduplicated label set sklearn infers when `labels` is omitted:
all naturals up to the maximum that occur in the data, in order. -/
def uniqueSorted (l : List ℕ) : List ℕ :=
  (List.range (l.foldl max 0 + 1)).filter fun x => x ∈ l

/-- `sklearn.metrics.confusion_matrix(y_true, y_pred, labels)`: rows are
true labels, columns predicted labels; when `labels` is `none` the label
set is inferred from the union of both sequences. -/
def confusion_matrix (y_true y_pred : List ℕ) (labels : Option (List ℕ)) :
    List (List ℕ) :=
  let ls := labels.getD (uniqueSorted (y_true ++ y_pred))
  ls.map fun i => ls.map fun j => countPairs y_true y_pred i j

/-- `TN, FP, FN, TP = confusion[0,0], confusion[0,1], confusion[1,0],
confusion[1,1]`: numpy indexing, `none` models the `IndexError` raised
when the matrix is smaller than 2×2. -/
def extractCells (m : List (List ℕ)) : Option (ℕ × ℕ × ℕ × ℕ) :=
  match m with
  | (a :: b :: _) :: (c :: d :: _) :: _ => some (a, b, c, d)
  | _ => none

/-- `np.sum(confusion)`: sum of every cell of the matrix. -/
def matSum (m : List (List ℕ)) : ℕ :=
  (m.map List.sum).sum

/-- `confusion.size`: total number of cells. -/
def matSize (m : List (List ℕ)) : ℕ :=
  (m.map List.length).sum

/-- `confusion.ravel() if confusion.size == 4 else (0, 0, 0, 0)` — the
cell extraction of `test_all_images` with its fallback branch. -/
def cellsOrZero (m : List (List ℕ)) : ℕ × ℕ × ℕ × ℕ :=
  if matSize m = 4 then
    match m.flatten with
    | a :: b :: c :: d :: _ => (a, b, c, d)
    | _ => (0, 0, 0, 0)
  else (0, 0, 0, 0)

/-- The five summary statistics derived from a confusion matrix. -/
structure Stats where
  accuracy : ℚ
  sensitivity : ℚ
  specificity : ℚ
  f1_or_dsc : ℚ
  miou : ℚ
deriving DecidableEq, Repr

/-- Lines 89–93 / 159–163 / 205–209 of `engine.py`, as a function of the
four cells: each ratio with the `if denominator != 0 else 0` guard. At
every call site the matrix the cells come from is 2×2, so
`np.sum(confusion)` — accuracy's denominator in the source — equals
`TN + FP + FN + TP`; the call-site wrappers below keep `matSum` literally. -/
def derive_statistics (TN FP FN TP : ℕ) : Stats where
  accuracy :=
    if ((TN + FP + FN + TP : ℕ) : ℚ) ≠ 0 then
      ((TN + TP : ℕ) : ℚ) / ((TN + FP + FN + TP : ℕ) : ℚ) else 0
  sensitivity :=
    if ((TP + FN : ℕ) : ℚ) ≠ 0 then ((TP : ℕ) : ℚ) / ((TP + FN : ℕ) : ℚ) else 0
  specificity :=
    if ((TN + FP : ℕ) : ℚ) ≠ 0 then ((TN : ℕ) : ℚ) / ((TN + FP : ℕ) : ℚ) else 0
  f1_or_dsc :=
    if ((2 * TP + FP + FN : ℕ) : ℚ) ≠ 0 then
      ((2 * TP : ℕ) : ℚ) / ((2 * TP + FP + FN : ℕ) : ℚ) else 0
  miou :=
    if ((TP + FP + FN : ℕ) : ℚ) ≠ 0 then
      ((TP : ℕ) : ℚ) / ((TP + FP + FN : ℕ) : ℚ) else 0

/-- Cell extraction followed by the statistics block, with accuracy's
denominator kept as `np.sum(confusion)` exactly as in the source
(`val_one_epoch` lines 85–93, `test_one_epoch` lines 156–163); `none`
models the `IndexError` of the extraction on a sub-2×2 matrix. -/
def statsOfConfusion (confusion : List (List ℕ)) : Option Stats :=
  match extractCells confusion with
  | none => none
  | some (TN, FP, FN, TP) =>
      some { derive_statistics TN FP FN TP with
             accuracy :=
               if ((matSum confusion : ℕ) : ℚ) ≠ 0 then
                 ((TN + TP : ℕ) : ℚ) / ((matSum confusion : ℕ) : ℚ) else 0 }

/-- Log lines emitted by the passes, kept structured: the interesting
content is which line is produced, and with which numbers. -/
inductive LogEntry where
  | valMetrics (epoch : ℕ) (loss : ℚ) (s : Stats) (confusion : List (List ℕ))
  | valLoss (epoch : ℕ) (loss : ℚ)
  | geomError (sample : ℕ)
  | testMetrics (loss : ℚ) (s : Stats) (confusion : List (List ℕ))
    (avg_hd avg_asd : Option ℚ)
  | csvSaved
deriving DecidableEq, Repr

/-- `val_one_epoch` (lines 54–105): pools predictions and ground truths,
and on a cadence epoch binarizes them (predictions against
`config.threshold`, ground truth against `0.5`), builds the confusion
matrix with inferred labels and logs the derived statistics; `none` models
the `IndexError` escaping the call when cell extraction fails. The mean
loss is returned either way. -/
def val_one_epoch (bs : List Batch) (epoch : ℕ) (cfg : Config) :
    Option (List LogEntry × ℚ) :=
  let lossMean := listMean (bs.map Batch.lossVal)
  if epoch % cfg.val_interval = 0 then
    let y_pre := binarize (pooledPreds bs) cfg.threshold
    let y_true := binarize (pooledGts bs) (1 / 2)
    let confusion := confusion_matrix y_true y_pre none
    match statsOfConfusion confusion with
    | none => none
    | some s => some ([LogEntry.valMetrics epoch lossMean s confusion], lossMean)
  else
    some ([LogEntry.valLoss epoch lossMean], lossMean)

/-- The external boundary-distance primitives `medpy.metric.binary.hd` and
`asd` as oracles on binary masks; `none` models the exception raised on a
degenerate mask. -/
structure GeomOracle where
  hd : List ℕ → List ℕ → Option ℚ
  asd : List ℕ → List ℕ → Option ℚ

/-- The `try`/`except` block of `test_one_epoch` (lines 139–147): the two
distance calls in order; any failure maps BOTH results to NaN (`none`
here) and flags that the diagnostic line was printed. -/
def geomStep (g : GeomOracle) (bin_pred bin_gt : List ℕ) :
    Option ℚ × Option ℚ × Bool :=
  match g.hd bin_pred bin_gt with
  | none => (none, none, true)
  | some h =>
      match g.asd bin_pred bin_gt with
      | none => (none, none, true)
      | some a => (some h, some a, false)

/-- Per-sample geometry results of the test pass: for every batch, the
pair recorded in `hd_list`/`asd_list` and whether the error diagnostic was
printed. -/
def geom_results (g : GeomOracle) (cfg : Config) (bs : List Batch) :
    List (Option ℚ × Option ℚ × Bool) :=
  bs.map fun b =>
    geomStep g (binarize (unwrapOut b.out) cfg.threshold) (binarize b.gt (1 / 2))

/-- `np.nanmean(hd_list) if len(hd_list) > 0 else np.nan`: mean of the
numeric entries, NaN (`none`) when there is none. -/
def nanmean (l : List (Option ℚ)) : Option ℚ :=
  let valid := l.filterMap id
  if valid.length = 0 then none else some (listMean valid)

/-- `test_one_epoch` (lines 108–177): per-sample boundary distances with
the local failure recovery, then the pooled confusion-matrix statistics
exactly as in validation; `none` again models the `IndexError` of cell
extraction on single-class pooled data. -/
def test_one_epoch (g : GeomOracle) (cfg : Config) (bs : List Batch) :
    Option (List LogEntry × ℚ) :=
  let geoms := geom_results g cfg bs
  let geomLogs := ((List.range bs.length).zip geoms).filterMap
    fun p => if p.2.2.2 then some (LogEntry.geomError p.1) else none
  let lossMean := listMean (bs.map Batch.lossVal)
  let y_pre := binarize (pooledPreds bs) cfg.threshold
  let y_true := binarize (pooledGts bs) (1 / 2)
  let confusion := confusion_matrix y_true y_pre none
  match statsOfConfusion confusion with
  | none => none
  | some s =>
      some (geomLogs ++
        [LogEntry.testMetrics lossMean s confusion
          (nanmean (geoms.map fun r => r.1))
          (nanmean (geoms.map fun r => r.2.1))], lossMean)

/-- One row of `test_results.csv`: the header row, or a data row holding
`file_name[0], loss, miou, f1_or_dsc, accuracy, specificity, sensitivity`. -/
inductive CsvRow where
  | header
  | data (fileName : String) (loss miou f1_or_dsc accuracy specificity sensitivity : ℚ)
deriving DecidableEq, Repr

/-- Whether a CSV row is the header row. -/
def CsvRow.isHeader : CsvRow → Bool
  | .header => true
  | .data .. => false

/-- Lines 213–220: the file's existence is checked once (`os.path.isfile`),
the file is opened in append mode, the header is written only when the
file did not exist, and the data rows are appended. `none` models an
absent file; the result is the file's row content after the call. -/
def csvAppend (file : Option (List CsvRow)) (results : List CsvRow) :
    List CsvRow :=
  match file with
  | none => CsvRow.header :: results
  | some rows => rows ++ results

/-- The statistics block of `test_all_images` (lines 203–209): cells via
`ravel` with the size-4 fallback, accuracy's denominator again
`np.sum(confusion)`. -/
def test_all_stats (confusion : List (List ℕ)) : Stats :=
  let c := cellsOrZero confusion
  { derive_statistics c.1 c.2.1 c.2.2.1 c.2.2.2 with
    accuracy :=
      if ((matSum confusion : ℕ) : ℚ) ≠ 0 then
        ((c.1 + c.2.2.2 : ℕ) : ℚ) / ((matSum confusion : ℕ) : ℚ) else 0 }

/-- One loop iteration of `test_all_images` (lines 186–211): the raw model
output is squeezed with NO tuple check (a tuple output raises
`AttributeError`, hence `none`), both arrays are binarized and flattened,
the confusion matrix is built with explicit labels `[0, 1]`, and the CSV
data row is assembled. -/
def test_all_row (cfg : Config) (b : Batch) : Option CsvRow :=
  match squeezeOut b.out with
  | none => none
  | some out =>
      let y_pre := binarize out cfg.threshold
      let y_true := binarize b.gt (1 / 2)
      let confusion := confusion_matrix y_true y_pre (some [0, 1])
      let s := test_all_stats confusion
      some (CsvRow.data b.fileName b.lossVal s.miou s.f1_or_dsc s.accuracy
        s.specificity s.sensitivity)

/-- `test_all_images` (lines 180–226): per-sample rows, then the CSV write
through `csvAppend`; returns the file content after the write and the mean
loss. `none` models the `AttributeError` aborting the call when some
batch's model output is a tuple. -/
def test_all_images (cfg : Config) (bs : List Batch)
    (file : Option (List CsvRow)) : Option (List CsvRow × ℚ) :=
  match bs.mapM (test_all_row cfg) with
  | none => none
  | some results => some (csvAppend file results, listMean (bs.map Batch.lossVal))

/-- In all five statistics a vanishing denominator forces a vanishing
numerator, so the guarded ratio coincides with the field ratio of `ℚ`
(where division by zero is zero). -/
theorem guardDiv_eq (n d : ℕ) (h : d = 0 → n = 0) :
    (if ((d : ℕ) : ℚ) ≠ 0 then ((n : ℕ) : ℚ) / ((d : ℕ) : ℚ) else 0)
      = ((n : ℕ) : ℚ) / ((d : ℕ) : ℚ) := by
  by_cases hd : d = 0
  · subst hd
    simp [h rfl]
  · simp [Nat.cast_ne_zero.mpr hd]

/-- C1: each of the five derived statistics equals its defining ratio
(accuracy = (TN+TP)/(TN+FP+FN+TP), sensitivity = TP/(TP+FN), specificity
= TN/(TN+FP), f1_dice = 2·TP/(2·TP+FP+FN), miou = TP/(TP+FP+FN)), each
equals 0 when its denominator is 0, and at TN=FP=FN=TP=0 all five are 0
with no division-by-zero failure (the function is total). -/
theorem claim_C1 (TN FP FN TP : ℕ) :
    (derive_statistics TN FP FN TP).accuracy
        = ((TN + TP : ℕ) : ℚ) / ((TN + FP + FN + TP : ℕ) : ℚ)
    ∧ (derive_statistics TN FP FN TP).sensitivity
        = ((TP : ℕ) : ℚ) / ((TP + FN : ℕ) : ℚ)
    ∧ (derive_statistics TN FP FN TP).specificity
        = ((TN : ℕ) : ℚ) / ((TN + FP : ℕ) : ℚ)
    ∧ (derive_statistics TN FP FN TP).f1_or_dsc
        = ((2 * TP : ℕ) : ℚ) / ((2 * TP + FP + FN : ℕ) : ℚ)
    ∧ (derive_statistics TN FP FN TP).miou
        = ((TP : ℕ) : ℚ) / ((TP + FP + FN : ℕ) : ℚ)
    ∧ (TN + FP + FN + TP = 0 → (derive_statistics TN FP FN TP).accuracy = 0)
    ∧ (TP + FN = 0 → (derive_statistics TN FP FN TP).sensitivity = 0)
    ∧ (TN + FP = 0 → (derive_statistics TN FP FN TP).specificity = 0)
    ∧ (2 * TP + FP + FN = 0 → (derive_statistics TN FP FN TP).f1_or_dsc = 0)
    ∧ (TP + FP + FN = 0 → (derive_statistics TN FP FN TP).miou = 0)
    ∧ derive_statistics 0 0 0 0 = ⟨0, 0, 0, 0, 0⟩ := by
  refine ⟨?_, ?_, ?_, ?_, ?_, ?_, ?_, ?_, ?_, ?_, by decide⟩
  · simpa only [derive_statistics] using
      guardDiv_eq (TN + TP) (TN + FP + FN + TP) (by omega)
  · simpa only [derive_statistics] using guardDiv_eq TP (TP + FN) (by omega)
  · simpa only [derive_statistics] using guardDiv_eq TN (TN + FP) (by omega)
  · simpa only [derive_statistics] using
      guardDiv_eq (2 * TP) (2 * TP + FP + FN) (by omega)
  · simpa only [derive_statistics] using guardDiv_eq TP (TP + FP + FN) (by omega)
  all_goals intro h
  all_goals simp [derive_statistics, h]

/-- C1 witness: the zero-denominator clauses instantiated at the all-zero
confusion matrix. -/
theorem claim_C1_witness :
    (derive_statistics 0 0 0 0).accuracy = 0
    ∧ (derive_statistics 0 0 0 0).sensitivity = 0 := by
  obtain ⟨-, -, -, -, -, h6, h7, -, -, -, -⟩ := claim_C1 0 0 0 0
  exact ⟨h6 rfl, h7 rfl⟩

/-- C4: binarization is elementwise — position `i` of the output is 1 when
the input value at `i` is ≥ the threshold and 0 otherwise — and every
evaluation pass binarizes predictions against the configurable
`config.threshold` while binarizing ground truth against the fixed `0.5`:
the confusion matrix consumed by the validation pass, the per-sample masks
of the test pass's geometry step, the pooled confusion matrix of the test
pass, and the per-sample confusion matrix of the CSV pass are all built
from exactly that pair of thresholds. -/
theorem claim_C4 :
    (∀ (xs : List ℚ) (t : ℚ) (i : ℕ),
      (binarize xs t)[i]? = (xs[i]?).map fun x => if t ≤ x then (1 : ℕ) else 0)
    ∧ (∀ (cfg : Config) (bs : List Batch) (epoch : ℕ) (s : Stats),
        epoch % cfg.val_interval = 0 →
        statsOfConfusion (confusion_matrix (binarize (pooledGts bs) (1 / 2))
            (binarize (pooledPreds bs) cfg.threshold) none) = some s →
        val_one_epoch bs epoch cfg =
          some ([LogEntry.valMetrics epoch (listMean (bs.map Batch.lossVal)) s
              (confusion_matrix (binarize (pooledGts bs) (1 / 2))
                (binarize (pooledPreds bs) cfg.threshold) none)],
            listMean (bs.map Batch.lossVal)))
    ∧ (∀ (g : GeomOracle) (cfg : Config) (bs : List Batch),
        geom_results g cfg bs = bs.map fun b =>
          geomStep g (binarize (unwrapOut b.out) cfg.threshold)
            (binarize b.gt (1 / 2)))
    ∧ (∀ (g : GeomOracle) (cfg : Config) (bs : List Batch) (s : Stats),
        statsOfConfusion (confusion_matrix (binarize (pooledGts bs) (1 / 2))
            (binarize (pooledPreds bs) cfg.threshold) none) = some s →
        ∃ logs hdm asdm, test_one_epoch g cfg bs =
          some (logs ++ [LogEntry.testMetrics (listMean (bs.map Batch.lossVal)) s
              (confusion_matrix (binarize (pooledGts bs) (1 / 2))
                (binarize (pooledPreds bs) cfg.threshold) none) hdm asdm],
            listMean (bs.map Batch.lossVal)))
    ∧ (∀ (cfg : Config) (b : Batch) (out : List ℚ), b.out = ModelOut.single out →
        ∃ s, s = test_all_stats (confusion_matrix (binarize b.gt (1 / 2))
            (binarize out cfg.threshold) (some [0, 1]))
          ∧ test_all_row cfg b = some (CsvRow.data b.fileName b.lossVal s.miou
              s.f1_or_dsc s.accuracy s.specificity s.sensitivity)) := by
  refine ⟨?_, ?_, fun _ _ _ => rfl, ?_, ?_⟩
  · intro xs t i
    simp [binarize]
  · intro cfg bs epoch s h1 h2
    simp only [val_one_epoch, if_pos h1, h2]
  · intro g cfg bs s h
    simp only [test_one_epoch, h]
    exact ⟨_, _, _, rfl⟩
  · intro cfg b out h
    refine ⟨_, rfl, ?_⟩
    simp only [test_all_row, squeezeOut, h]

/-- C4 witness: the elementwise clause at a concrete array and the
validation clause at a concrete two-element batch whose metrics all
evaluate to 1. -/
theorem claim_C4_witness :
    (binarize [(3 : ℚ) / 5] (1 / 2))[0]? = some 1
    ∧ val_one_epoch [⟨ModelOut.single [1, 0], [1, 0], 0, "a"⟩] 0 ⟨1 / 2, 1⟩ ≠
        none := by
  obtain ⟨h1, h2, -, -, -⟩ := claim_C4
  constructor
  · rw [h1]
    norm_num
  · have hgt : binarize (pooledGts [⟨ModelOut.single [1, 0], [1, 0], 0, "a"⟩])
        (1 / 2) = [1, 0] := by
      norm_num [binarize, pooledGts]
    have hpr : binarize (pooledPreds [⟨ModelOut.single [1, 0], [1, 0], 0, "a"⟩])
        ((⟨1 / 2, 1⟩ : Config).threshold) = [1, 0] := by
      norm_num [binarize, pooledPreds, unwrapOut]
    have hm : confusion_matrix [1, 0] [1, 0] none = [[1, 0], [0, 1]] := by decide
    have hs : statsOfConfusion [[1, 0], [0, 1]] = some ⟨1, 1, 1, 1, 1⟩ := by
      norm_num [statsOfConfusion, extractCells, matSum, derive_statistics]
    have := h2 ⟨1 / 2, 1⟩ [⟨ModelOut.single [1, 0], [1, 0], 0, "a"⟩] 0
      ⟨1, 1, 1, 1, 1⟩ rfl (by rw [hgt, hpr, hm]; exact hs)
    rw [this]
    simp

/-- C9: with the explicit label set `[0, 1]`, the confusion matrix of the
per-sample test pass has exactly 4 cells for every input pair, so the
fallback branch substituting `(0, 0, 0, 0)` when the size is not 4 is
unreachable: the extracted cells are always the four pair counts. -/
theorem claim_C9 (y_true y_pred : List ℕ) :
    matSize (confusion_matrix y_true y_pred (some [0, 1])) = 4
    ∧ cellsOrZero (confusion_matrix y_true y_pred (some [0, 1]))
        = (countPairs y_true y_pred 0 0, countPairs y_true y_pred 0 1,
           countPairs y_true y_pred 1 0, countPairs y_true y_pred 1 1) :=
  ⟨rfl, rfl⟩

/-- Any element of a list is bounded by the running maximum `foldl max`. -/
theorem le_foldl_max (l : List ℕ) : ∀ (a x : ℕ), x ∈ l ∨ x ≤ a → x ≤ l.foldl max a := by
  induction l with
  | nil =>
      intro a x h
      rcases h with h | h
      · cases h
      · exact h
  | cons b l ih =>
      intro a x h
      rcases h with h | h
      · rcases List.mem_cons.mp h with rfl | h
        · exact ih (max a x) x (Or.inr (le_max_right a x))
        · exact ih (max a b) x (Or.inl h)
      · exact ih (max a b) x (Or.inr (le_trans h (le_max_left a b)))

/-- The running maximum of a list is bounded by any bound of its elements
and the seed. -/
theorem foldl_max_le (l : List ℕ) : ∀ (a c : ℕ), a ≤ c → (∀ x ∈ l, x ≤ c) →
    l.foldl max a ≤ c := by
  induction l with
  | nil =>
      intro a c ha _
      exact ha
  | cons b l ih =>
      intro a c ha hb
      exact ih (max a b) c (max_le ha (hb b (List.mem_cons_self b l)))
        fun x hx => hb x (List.mem_cons_of_mem b hx)

/-- Membership in the inferred label set is membership in the data. -/
theorem mem_uniqueSorted (l : List ℕ) (x : ℕ) : x ∈ uniqueSorted l ↔ x ∈ l := by
  unfold uniqueSorted
  simp only [List.mem_filter, List.mem_range, decide_eq_true_eq]
  constructor
  · exact fun h => h.2
  · intro h
    exact ⟨Nat.lt_succ_of_le (le_foldl_max l 0 x (Or.inl h)), h⟩

/-- On binary data containing both classes, sklearn infers exactly the
label set `[0, 1]`. -/
theorem uniqueSorted_eq_01 (l : List ℕ) (hb : ∀ x ∈ l, x = 0 ∨ x = 1)
    (h0 : 0 ∈ l) (h1 : 1 ∈ l) : uniqueSorted l = [0, 1] := by
  have hle : l.foldl max 0 ≤ 1 :=
    foldl_max_le l 0 1 (by omega) fun x hx => by rcases hb x hx with rfl | rfl <;> omega
  have hge : 1 ≤ l.foldl max 0 := le_foldl_max l 0 1 (Or.inl h1)
  have hmax : l.foldl max 0 = 1 := le_antisymm hle hge
  unfold uniqueSorted
  rw [hmax, show List.range (1 + 1) = [0, 1] from rfl]
  simp [List.filter_cons, h0, h1]

/-- On binary data missing one of the two classes, the inferred label set
has at most one element. -/
theorem uniqueSorted_short (l : List ℕ) (hb : ∀ x ∈ l, x = 0 ∨ x = 1)
    (hno : ¬(0 ∈ l ∧ 1 ∈ l)) : (uniqueSorted l).length ≤ 1 := by
  by_cases h1 : 1 ∈ l
  · by_cases h0 : 0 ∈ l
    · exact absurd ⟨h0, h1⟩ hno
    · have hle : l.foldl max 0 ≤ 1 :=
        foldl_max_le l 0 1 (by omega) fun x hx => by rcases hb x hx with rfl | rfl <;> omega
      have hge : 1 ≤ l.foldl max 0 := le_foldl_max l 0 1 (Or.inl h1)
      have hmax : l.foldl max 0 = 1 := le_antisymm hle hge
      unfold uniqueSorted
      rw [hmax, show List.range (1 + 1) = [0, 1] from rfl]
      simp [List.filter_cons, h0]
      split <;> simp
  · have hle : l.foldl max 0 ≤ 0 :=
      foldl_max_le l 0 0 le_rfl fun x hx => by
        rcases hb x hx with rfl | rfl
        · exact le_rfl
        · exact absurd hx h1
    have hmax : l.foldl max 0 = 0 := Nat.le_zero.mp hle
    unfold uniqueSorted
    rw [hmax, show List.range (0 + 1) = [0] from rfl]
    exact le_trans (List.length_filter_le _ _) (by simp)

/-- Cell extraction fails (the `IndexError`) whenever the label list the
matrix is built over has fewer than two entries. -/
theorem extractCells_short (ls : List ℕ) (y_true y_pred : List ℕ)
    (h : ls.length ≤ 1) :
    extractCells (ls.map fun i => ls.map fun j => countPairs y_true y_pred i j)
      = none := by
  match ls, h with
  | [], _ => rfl
  | [x], _ => rfl

/-- A one-element batch whose prediction and ground truth binarize to the
single class 0 — the degenerate input for the inferred-label passes. -/
def zeroBatch : Batch := ⟨ModelOut.single [0], [0], 0, "a"⟩

/-- C2 counterexample: on the equal-length binary pair `[0]`, `[0]` the
four-cell extraction used by the validation pass fails (the inferred
matrix is 1×1, numpy indexing raises `IndexError`), and the validation
pass itself aborts on a metrics epoch instead of succeeding. -/
theorem claim_C2_counterexample :
    extractCells (confusion_matrix [0] [0] none) = none
    ∧ val_one_epoch [zeroBatch] 0 ⟨1 / 2, 1⟩ = none := by
  constructor
  · rfl
  · have hb : binarize [(0 : ℚ)] (1 / 2) = [0] := by norm_num [binarize]
    have hp : pooledPreds [zeroBatch] = [0] := rfl
    have hg : pooledGts [zeroBatch] = [0] := rfl
    simp only [val_one_epoch, hp, hg, hb, Nat.zero_mod, if_pos rfl]
    rfl

/-- C2 amended: with the explicit label set `[0, 1]` (the per-sample test
pass) extraction always succeeds and the cells of an absent class are
zero; with inferred labels (validation and test passes) extraction
succeeds exactly when both classes occur somewhere in the pooled inputs,
and raises an index error when they do not. -/
theorem claim_C2 (y_true y_pred : List ℕ)
    (hb1 : ∀ x ∈ y_true, x = 0 ∨ x = 1) (hb2 : ∀ x ∈ y_pred, x = 0 ∨ x = 1) :
    extractCells (confusion_matrix y_true y_pred (some [0, 1]))
      = some (countPairs y_true y_pred 0 0, countPairs y_true y_pred 0 1,
          countPairs y_true y_pred 1 0, countPairs y_true y_pred 1 1)
    ∧ (1 ∉ y_true →
        countPairs y_true y_pred 1 0 = 0 ∧ countPairs y_true y_pred 1 1 = 0)
    ∧ (0 ∉ y_true →
        countPairs y_true y_pred 0 0 = 0 ∧ countPairs y_true y_pred 0 1 = 0)
    ∧ (1 ∉ y_pred →
        countPairs y_true y_pred 0 1 = 0 ∧ countPairs y_true y_pred 1 1 = 0)
    ∧ (0 ∉ y_pred →
        countPairs y_true y_pred 0 0 = 0 ∧ countPairs y_true y_pred 1 0 = 0)
    ∧ (0 ∈ y_true ++ y_pred → 1 ∈ y_true ++ y_pred →
        extractCells (confusion_matrix y_true y_pred none)
          = some (countPairs y_true y_pred 0 0, countPairs y_true y_pred 0 1,
              countPairs y_true y_pred 1 0, countPairs y_true y_pred 1 1))
    ∧ (¬(0 ∈ y_true ++ y_pred ∧ 1 ∈ y_true ++ y_pred) →
        extractCells (confusion_matrix y_true y_pred none) = none) := by
  have hball : ∀ x ∈ y_true ++ y_pred, x = 0 ∨ x = 1 := by
    intro x hx
    rcases List.mem_append.mp hx with h | h
    · exact hb1 x h
    · exact hb2 x h
  have hzero : ∀ (v : ℕ) (j : ℕ), v ∉ y_true → countPairs y_true y_pred v j = 0 := by
    intro v j hv
    unfold countPairs
    rw [List.length_eq_zero, List.filter_eq_nil_iff]
    rintro ⟨a, b⟩ hab
    have := (List.of_mem_zip hab).1
    simp only [Bool.and_eq_true, beq_iff_eq, not_and]
    rintro rfl
    exact absurd this hv
  have hzero2 : ∀ (i v : ℕ), v ∉ y_pred → countPairs y_true y_pred i v = 0 := by
    intro i v hv
    unfold countPairs
    rw [List.length_eq_zero, List.filter_eq_nil_iff]
    rintro ⟨a, b⟩ hab
    have := (List.of_mem_zip hab).2
    simp only [Bool.and_eq_true, beq_iff_eq, not_and]
    intro _ hb
    exact absurd (hb ▸ this) hv
  refine ⟨rfl, fun h => ⟨hzero 1 0 h, hzero 1 1 h⟩, fun h => ⟨hzero 0 0 h, hzero 0 1 h⟩,
    fun h => ⟨hzero2 0 1 h, hzero2 1 1 h⟩, fun h => ⟨hzero2 0 0 h, hzero2 1 0 h⟩, ?_, ?_⟩
  · intro h0 h1
    unfold confusion_matrix
    rw [Option.getD_none, uniqueSorted_eq_01 _ hball h0 h1]
    rfl
  · intro hno
    unfold confusion_matrix
    rw [Option.getD_none]
    exact extractCells_short _ _ _ (uniqueSorted_short _ hball hno)

/-- C2 witness: the labelled extraction and the inferred extraction agree
on the concrete two-class pair `[0, 1]`, `[1, 0]`. -/
theorem claim_C2_witness :
    extractCells (confusion_matrix [0, 1] [1, 0] (some [0, 1])) = some (0, 1, 1, 0)
    ∧ extractCells (confusion_matrix [0, 1] [1, 0] none) = some (0, 1, 1, 0) := by
  obtain ⟨h1, -, -, -, -, h6, -⟩ := claim_C2 [0, 1] [1, 0] (by decide) (by decide)
  constructor
  · rw [h1]
    decide
  · rw [h6 (by decide) (by decide)]
    decide

/-- Every pair of a binary-valued pair list falls in exactly one of the
four cells, so the four cell counts partition the list. -/
theorem count_four (l : List (ℕ × ℕ))
    (hb : ∀ p ∈ l, (p.1 = 0 ∨ p.1 = 1) ∧ (p.2 = 0 ∨ p.2 = 1)) :
    (l.filter fun ab => ab.1 == 0 && ab.2 == 0).length
      + (l.filter fun ab => ab.1 == 0 && ab.2 == 1).length
      + (l.filter fun ab => ab.1 == 1 && ab.2 == 0).length
      + (l.filter fun ab => ab.1 == 1 && ab.2 == 1).length = l.length := by
  induction l with
  | nil => rfl
  | cons p l ih =>
      have hp := hb p (List.mem_cons_self p l)
      have hrest := ih fun q hq => hb q (List.mem_cons_of_mem p hq)
      obtain ⟨h1 | h1, h2 | h2⟩ := hp <;>
        simp only [List.filter_cons, h1, h2, List.length_cons] <;>
        norm_num <;> omega

/-- The four pair counts of an equal-length binary pair of sequences sum
to the common length. -/
theorem countPairs_partition (y_true y_pred : List ℕ)
    (hb1 : ∀ x ∈ y_true, x = 0 ∨ x = 1) (hb2 : ∀ x ∈ y_pred, x = 0 ∨ x = 1)
    (hl : y_true.length = y_pred.length) :
    countPairs y_true y_pred 0 0 + countPairs y_true y_pred 0 1
      + countPairs y_true y_pred 1 0 + countPairs y_true y_pred 1 1
      = y_true.length := by
  have hz : ∀ p ∈ y_true.zip y_pred, (p.1 = 0 ∨ p.1 = 1) ∧ (p.2 = 0 ∨ p.2 = 1) := by
    rintro ⟨a, b⟩ hab
    obtain ⟨ha, hb⟩ := List.of_mem_zip hab
    exact ⟨hb1 a ha, hb2 b hb⟩
  have := count_four (y_true.zip y_pred) hz
  unfold countPairs
  rw [this, List.length_zip, hl, min_self]

/-- C8: for a confusion matrix over an equal-length binarized pair, the
four extracted cells TN, FP, FN, TP sum to the number of elements
compared — for the explicit-label matrix of the per-sample pass (whose
`np.sum(confusion)` therefore also equals the element count) and for the
inferred-label matrix of the pooled passes whenever its cells can be
extracted. -/
theorem claim_C8 (y_true y_pred : List ℕ)
    (hb1 : ∀ x ∈ y_true, x = 0 ∨ x = 1) (hb2 : ∀ x ∈ y_pred, x = 0 ∨ x = 1)
    (hl : y_true.length = y_pred.length) :
    (cellsOrZero (confusion_matrix y_true y_pred (some [0, 1]))).1
        + (cellsOrZero (confusion_matrix y_true y_pred (some [0, 1]))).2.1
        + (cellsOrZero (confusion_matrix y_true y_pred (some [0, 1]))).2.2.1
        + (cellsOrZero (confusion_matrix y_true y_pred (some [0, 1]))).2.2.2
      = y_true.length
    ∧ matSum (confusion_matrix y_true y_pred (some [0, 1])) = y_true.length
    ∧ (∀ TN FP FN TP,
        extractCells (confusion_matrix y_true y_pred none) = some (TN, FP, FN, TP) →
        TN + FP + FN + TP = y_true.length) := by
  have hpart := countPairs_partition y_true y_pred hb1 hb2 hl
  refine ⟨?_, ?_, ?_⟩
  · exact hpart
  · show countPairs y_true y_pred 0 0 + (countPairs y_true y_pred 0 1 + 0)
      + (countPairs y_true y_pred 1 0 + (countPairs y_true y_pred 1 1 + 0) + 0)
      = y_true.length
    omega
  · intro TN FP FN TP h
    by_cases hcl : 0 ∈ y_true ++ y_pred ∧ 1 ∈ y_true ++ y_pred
    · have hball : ∀ x ∈ y_true ++ y_pred, x = 0 ∨ x = 1 := by
        intro x hx
        rcases List.mem_append.mp hx with hx | hx
        · exact hb1 x hx
        · exact hb2 x hx
      unfold confusion_matrix at h
      rw [Option.getD_none, uniqueSorted_eq_01 _ hball hcl.1 hcl.2] at h
      have h' : some (countPairs y_true y_pred 0 0, countPairs y_true y_pred 0 1,
          countPairs y_true y_pred 1 0, countPairs y_true y_pred 1 1)
          = some (TN, FP, FN, TP) := h
      obtain ⟨rfl, rfl, rfl, rfl⟩ : TN = countPairs y_true y_pred 0 0
          ∧ FP = countPairs y_true y_pred 0 1 ∧ FN = countPairs y_true y_pred 1 0
          ∧ TP = countPairs y_true y_pred 1 1 := by
        injection h' with h''
        exact ⟨congrArg (fun t => t.1) h''.symm, congrArg (fun t => t.2.1) h''.symm,
          congrArg (fun t => t.2.2.1) h''.symm, congrArg (fun t => t.2.2.2) h''.symm⟩
      exact hpart
    · have hball : ∀ x ∈ y_true ++ y_pred, x = 0 ∨ x = 1 := by
        intro x hx
        rcases List.mem_append.mp hx with hx | hx
        · exact hb1 x hx
        · exact hb2 x hx
      have hnone : extractCells (confusion_matrix y_true y_pred none) = none := by
        unfold confusion_matrix
        rw [Option.getD_none]
        exact extractCells_short _ _ _ (uniqueSorted_short _ hball hcl)
      rw [hnone] at h
      cases h

/-- C8 witness: the invariant on the concrete equal-length binary pair
`[0, 1]`, `[1, 0]` of length 2. -/
theorem claim_C8_witness :
    matSum (confusion_matrix [0, 1] [1, 0] (some [0, 1])) = 2 := by
  have := (claim_C8 [0, 1] [1, 0] (by decide) (by decide) rfl).2.1
  simpa using this

/-- The everywhere-failing geometry oracle: every distance call raises. -/
def gNone : GeomOracle := ⟨fun _ _ => none, fun _ _ => none⟩

/-- C3: in the test pass every sample gets a geometry record (one entry
per batch, the pass never stops early), a failing sample is recorded as
NaN for BOTH distances with the diagnostic emitted while a successful one
records both numbers, and whether the pass as a whole aborts is
independent of the geometry oracle — even the everywhere-failing oracle
aborts exactly when any other does. -/
theorem claim_C3 (g : GeomOracle) (cfg : Config) (bs : List Batch) :
    (geom_results g cfg bs).length = bs.length
    ∧ (∀ r ∈ geom_results g cfg bs,
        (r.1 = none ∧ r.2.1 = none ∧ r.2.2 = true)
        ∨ (∃ h a, r.1 = some h ∧ r.2.1 = some a ∧ r.2.2 = false))
    ∧ (test_one_epoch g cfg bs).isSome = (test_one_epoch gNone cfg bs).isSome := by
  refine ⟨by simp [geom_results], ?_, ?_⟩
  · intro r hr
    simp only [geom_results, List.mem_map] at hr
    obtain ⟨b, -, rfl⟩ := hr
    unfold geomStep
    cases hh : g.hd (binarize (unwrapOut b.out) cfg.threshold) (binarize b.gt (1 / 2)) with
    | none => exact Or.inl ⟨rfl, rfl, rfl⟩
    | some h =>
        cases ha : g.asd (binarize (unwrapOut b.out) cfg.threshold)
            (binarize b.gt (1 / 2)) with
        | none => exact Or.inl ⟨rfl, rfl, rfl⟩
        | some a => exact Or.inr ⟨h, a, rfl, rfl, rfl⟩
  · simp only [test_one_epoch]
    cases hs : statsOfConfusion (confusion_matrix (binarize (pooledGts bs) (1 / 2))
        (binarize (pooledPreds bs) cfg.threshold) none) <;> rfl

/-- C3 witness: the everywhere-failing oracle on a one-sample pass still
produces one record, and that record is the NaN/NaN-with-diagnostic one. -/
theorem claim_C3_witness :
    (geom_results gNone ⟨1 / 2, 1⟩ [zeroBatch]).length = 1
    ∧ (((none : Option ℚ) = none ∧ (none : Option ℚ) = none ∧ true = true)
        ∨ (∃ h a, (none : Option ℚ) = some h ∧ (none : Option ℚ) = some a
            ∧ true = false)) := by
  obtain ⟨h1, h2, -⟩ := claim_C3 gNone ⟨1 / 2, 1⟩ [zeroBatch]
  refine ⟨by simpa using h1, ?_⟩
  have hm : geom_results gNone ⟨1 / 2, 1⟩ [zeroBatch] = [(none, none, true)] := rfl
  have := h2 (none, none, true) (by rw [hm]; exact List.mem_singleton_self _)
  exact this

/-- C5 counterexample: in the per-sample CSV pass a tuple-valued model
output is NOT unwrapped to its first element — the pass aborts
(`AttributeError` on `tuple.squeeze`), while the same data with the bare
array succeeds. -/
theorem claim_C5_counterexample :
    test_all_images ⟨1 / 2, 1⟩ [⟨ModelOut.tup [1] [], [1], 0, "b"⟩] none = none
    ∧ test_all_images ⟨1 / 2, 1⟩ [⟨ModelOut.single [1], [1], 0, "b"⟩] none ≠ none := by
  constructor
  · rfl
  · obtain ⟨r, hr⟩ : ∃ r, test_all_row ⟨1 / 2, 1⟩ ⟨ModelOut.single [1], [1], 0, "b"⟩
        = some r := ⟨_, rfl⟩
    have hm : List.mapM (test_all_row ⟨1 / 2, 1⟩)
        [⟨ModelOut.single [1], [1], 0, "b"⟩] = some [r] := by
      rw [List.mapM_cons, hr, List.mapM_nil]
      rfl
    unfold test_all_images
    rw [hm]
    exact fun hcontra => Option.noConfusion hcontra

/-- C5 amended: the validation and test passes unwrap a tuple-valued
model output to its first element before binarization and metrics — their
results on a tuple output coincide with those on its bare first element —
but the per-sample CSV pass does not unwrap: any tuple-valued output
aborts it. -/
theorem claim_C5 (a : List ℚ) (rest : List (List ℚ)) (gt : List ℚ) (lv : ℚ)
    (fn : String) (bs : List Batch) (epoch : ℕ) (cfg : Config) (g : GeomOracle)
    (file : Option (List CsvRow)) :
    val_one_epoch (⟨ModelOut.tup a rest, gt, lv, fn⟩ :: bs) epoch cfg
      = val_one_epoch (⟨ModelOut.single a, gt, lv, fn⟩ :: bs) epoch cfg
    ∧ test_one_epoch g cfg (⟨ModelOut.tup a rest, gt, lv, fn⟩ :: bs)
      = test_one_epoch g cfg (⟨ModelOut.single a, gt, lv, fn⟩ :: bs)
    ∧ test_all_images cfg (⟨ModelOut.tup a rest, gt, lv, fn⟩ :: bs) file = none := by
  refine ⟨rfl, rfl, rfl⟩

/-- C6: aggregation is asymmetric — the value returned by the test pass is
the arithmetic mean of the per-batch loss values, while the confusion
matrix is computed once over pooled data: binarization distributes over
concatenation, pooling two batches concatenates their flattened arrays,
and every cell count over a concatenation of equal-length batches is the
sum of the per-batch cell counts (so the pooled matrix is the matrix of
the concatenation). -/
theorem claim_C6 :
    (∀ (g : GeomOracle) (cfg : Config) (bs : List Batch) (logs : List LogEntry) (r : ℚ),
      test_one_epoch g cfg bs = some (logs, r) → r = listMean (bs.map Batch.lossVal))
    ∧ (∀ (xs ys : List ℚ) (t : ℚ), binarize (xs ++ ys) t = binarize xs t ++ binarize ys t)
    ∧ (∀ b1 b2 : Batch, pooledPreds [b1, b2] = unwrapOut b1.out ++ unwrapOut b2.out
        ∧ pooledGts [b1, b2] = b1.gt ++ b2.gt)
    ∧ (∀ (y1 p1 y2 p2 : List ℕ), y1.length = p1.length → ∀ i j : ℕ,
        countPairs (y1 ++ y2) (p1 ++ p2) i j
          = countPairs y1 p1 i j + countPairs y2 p2 i j) := by
  refine ⟨?_, ?_, ?_, ?_⟩
  · intro g cfg bs logs r h
    simp only [test_one_epoch] at h
    revert h
    cases hs : statsOfConfusion (confusion_matrix (binarize (pooledGts bs) (1 / 2))
        (binarize (pooledPreds bs) cfg.threshold) none) <;> intro h
    · cases h
    · cases h
      rfl
  · intro xs ys t
    simp [binarize]
  · intro b1 b2
    constructor <;> simp [pooledPreds, pooledGts]
  · intro y1 p1 y2 p2 h i j
    unfold countPairs
    rw [List.zip_append h, List.filter_append, List.length_append]

/-- C6 witness: a concrete one-batch test pass returns the loss mean 0,
and cell additivity at concrete equal-length batches. -/
theorem claim_C6_witness :
    (0 : ℚ) = listMean (([⟨ModelOut.single [1, 0], [1, 0], 0, "a"⟩] : List Batch).map
        Batch.lossVal)
    ∧ countPairs ([0] ++ [1]) ([1] ++ [1]) 1 1 = 1 := by
  obtain ⟨h1, -, -, h4⟩ := claim_C6
  constructor
  · have hgt : binarize (pooledGts [⟨ModelOut.single [1, 0], [1, 0], 0, "a"⟩])
        (1 / 2) = [1, 0] := by
      norm_num [binarize, pooledGts]
    have hpr : binarize (pooledPreds [⟨ModelOut.single [1, 0], [1, 0], 0, "a"⟩])
        ((⟨1 / 2, 1⟩ : Config).threshold) = [1, 0] := by
      norm_num [binarize, pooledPreds, unwrapOut]
    have hm : confusion_matrix [1, 0] [1, 0] none = [[1, 0], [0, 1]] := by decide
    have hsc : statsOfConfusion (confusion_matrix
        (binarize (pooledGts [⟨ModelOut.single [1, 0], [1, 0], 0, "a"⟩]) (1 / 2))
        (binarize (pooledPreds [⟨ModelOut.single [1, 0], [1, 0], 0, "a"⟩])
          ((⟨1 / 2, 1⟩ : Config).threshold)) none) = some ⟨1, 1, 1, 1, 1⟩ := by
      rw [hgt, hpr, hm]
      norm_num [statsOfConfusion, extractCells, matSum, derive_statistics]
    have hlm : listMean (([⟨ModelOut.single [1, 0], [1, 0], 0, "a"⟩] : List Batch).map
        Batch.lossVal) = 0 := by
      norm_num [listMean]
    obtain ⟨logs0, ht⟩ : ∃ logs, test_one_epoch gNone ⟨1 / 2, 1⟩
        [⟨ModelOut.single [1, 0], [1, 0], 0, "a"⟩] = some (logs, 0) := by
      simp only [test_one_epoch, hsc, hlm]
      exact ⟨_, rfl⟩
    have := h1 gNone ⟨1 / 2, 1⟩ [⟨ModelOut.single [1, 0], [1, 0], 0, "a"⟩] logs0 0 ht
    rw [← this]
  · have := h4 [0] [1] [1] [1] rfl 1 1
    rw [this]
    decide

/-- A successful per-sample loop of the CSV pass yields one row per batch
and only data rows — never a header row. -/
theorem test_all_rows_shape (cfg : Config) : ∀ (bs : List Batch) (rs : List CsvRow),
    bs.mapM (test_all_row cfg) = some rs →
    rs.length = bs.length ∧ ∀ r ∈ rs, r.isHeader = false := by
  intro bs
  induction bs with
  | nil =>
      intro rs h
      rw [List.mapM_nil] at h
      cases h
      exact ⟨rfl, by simp⟩
  | cons b bs ih =>
      intro rs h
      rw [List.mapM_cons] at h
      cases hy : test_all_row cfg b with
      | none => rw [hy] at h; cases h
      | some y =>
          cases hys : bs.mapM (test_all_row cfg) with
          | none => rw [hy, hys] at h; cases h
          | some ys =>
              rw [hy, hys] at h
              cases h
              obtain ⟨hl, hall⟩ := ih ys hys
              refine ⟨by simp [hl], ?_⟩
              intro r hr
              rcases List.mem_cons.mp hr with rfl | hr
              · cases hbout : b.out with
                | single arr =>
                    unfold test_all_row at hy
                    rw [hbout] at hy
                    cases hy
                    rfl
                | tup f rest =>
                    unfold test_all_row at hy
                    rw [hbout] at hy
                    cases hy
              · exact hall r hr

/-- C7: writing to a fresh path produces the header followed by exactly
one data row per sample; a subsequent write to the now-existing path
appends one data row per sample without re-writing the header — after
both writes the file still holds exactly one header row, which the single
pre-write existence check decides. -/
theorem claim_C7 (cfg : Config) (bs1 bs2 : List Batch) (rows1 rows2 : List CsvRow)
    (q1 q2 : ℚ)
    (h1 : test_all_images cfg bs1 none = some (rows1, q1))
    (h2 : test_all_images cfg bs2 (some rows1) = some (rows2, q2)) :
    (∃ ds1, rows1 = CsvRow.header :: ds1 ∧ ds1.length = bs1.length
        ∧ ∀ r ∈ ds1, r.isHeader = false)
    ∧ (rows1.filter CsvRow.isHeader).length = 1
    ∧ (∃ ds2, rows2 = rows1 ++ ds2 ∧ ds2.length = bs2.length
        ∧ ∀ r ∈ ds2, r.isHeader = false)
    ∧ (rows2.filter CsvRow.isHeader).length = 1 := by
  unfold test_all_images at h1 h2
  cases hm1 : bs1.mapM (test_all_row cfg) with
  | none => rw [hm1] at h1; cases h1
  | some rs1 =>
      rw [hm1] at h1
      cases h1
      cases hm2 : bs2.mapM (test_all_row cfg) with
      | none => rw [hm2] at h2; cases h2
      | some rs2 =>
          rw [hm2] at h2
          cases h2
          obtain ⟨hl1, hall1⟩ := test_all_rows_shape cfg bs1 rs1 hm1
          obtain ⟨hl2, hall2⟩ := test_all_rows_shape cfg bs2 rs2 hm2
          have hf1 : rs1.filter CsvRow.isHeader = [] := by
            rw [List.filter_eq_nil_iff]
            intro r hr
            simp [hall1 r hr]
          have hf2 : rs2.filter CsvRow.isHeader = [] := by
            rw [List.filter_eq_nil_iff]
            intro r hr
            simp [hall2 r hr]
          refine ⟨⟨rs1, rfl, hl1, hall1⟩, ?_, ⟨rs2, rfl, hl2, hall2⟩, ?_⟩
          · show ((CsvRow.header :: rs1).filter CsvRow.isHeader).length = 1
            simp [List.filter_cons, CsvRow.isHeader, hf1]
          · show ((csvAppend none rs1 ++ rs2).filter CsvRow.isHeader).length = 1
            show (((CsvRow.header :: rs1) ++ rs2).filter CsvRow.isHeader).length = 1
            simp [List.filter_cons, List.filter_append, CsvRow.isHeader, hf1, hf2]

/-- C7 witness: two successive writes of the same one-sample pass to the
same path leave exactly one header row in the file. -/
theorem claim_C7_witness :
    (([CsvRow.header, CsvRow.data "a" 0 1 1 1 0 1,
        CsvRow.data "a" 0 1 1 1 0 1] : List CsvRow).filter CsvRow.isHeader).length
      = 1 := by
  have hb1 : binarize [(1 : ℚ)] ((⟨1 / 2, 1⟩ : Config).threshold) = [1] := by
    norm_num [binarize]
  have hb2 : binarize [(1 : ℚ)] (1 / 2) = [1] := by
    norm_num [binarize]
  have hcm : confusion_matrix [1] [1] (some [0, 1]) = [[0, 0], [0, 1]] := by decide
  have hst : test_all_stats [[0, 0], [0, 1]] = ⟨1, 1, 0, 1, 1⟩ := by
    norm_num [test_all_stats, cellsOrZero, matSize, matSum, derive_statistics]
  have hrow : test_all_row ⟨1 / 2, 1⟩ ⟨ModelOut.single [1], [1], 0, "a"⟩
      = some (CsvRow.data "a" 0 1 1 1 0 1) := by
    simp only [test_all_row, squeezeOut, hb1, hb2, hcm, hst]
  have hmapM : List.mapM (test_all_row ⟨1 / 2, 1⟩)
      [⟨ModelOut.single [1], [1], 0, "a"⟩] = some [CsvRow.data "a" 0 1 1 1 0 1] := by
    rw [List.mapM_cons, hrow, List.mapM_nil]
    rfl
  have hlm : listMean (([⟨ModelOut.single [1], [1], 0, "a"⟩] : List Batch).map
      Batch.lossVal) = 0 := by
    norm_num [listMean]
  have himg1 : test_all_images ⟨1 / 2, 1⟩ [⟨ModelOut.single [1], [1], 0, "a"⟩] none
      = some ([CsvRow.header, CsvRow.data "a" 0 1 1 1 0 1], 0) := by
    unfold test_all_images
    rw [hmapM, hlm]
    rfl
  have himg2 : test_all_images ⟨1 / 2, 1⟩ [⟨ModelOut.single [1], [1], 0, "a"⟩]
      (some [CsvRow.header, CsvRow.data "a" 0 1 1 1 0 1])
      = some ([CsvRow.header, CsvRow.data "a" 0 1 1 1 0 1,
          CsvRow.data "a" 0 1 1 1 0 1], 0) := by
    unfold test_all_images
    rw [hmapM, hlm]
    rfl
  exact (claim_C7 ⟨1 / 2, 1⟩ [⟨ModelOut.single [1], [1], 0, "a"⟩]
    [⟨ModelOut.single [1], [1], 0, "a"⟩] [CsvRow.header, CsvRow.data "a" 0 1 1 1 0 1]
    [CsvRow.header, CsvRow.data "a" 0 1 1 1 0 1, CsvRow.data "a" 0 1 1 1 0 1]
    0 0 himg1 himg2).2.2.2

/-- C10 counterexample: on pooled single-class data the metrics branch
does more than change log lines — on a cadence epoch the validation pass
aborts with an index error (no value is returned at all), while the same
data on a non-cadence epoch returns the loss mean. -/
theorem claim_C10_counterexample :
    val_one_epoch [zeroBatch] 2 ⟨1 / 2, 2⟩ = none
    ∧ val_one_epoch [zeroBatch] 1 ⟨1 / 2, 2⟩ = some ([LogEntry.valLoss 1 0], 0) := by
  constructor
  · have hb : binarize [(0 : ℚ)] (1 / 2) = [0] := by norm_num [binarize]
    have hp : pooledPreds [zeroBatch] = [0] := rfl
    have hg : pooledGts [zeroBatch] = [0] := rfl
    simp only [val_one_epoch, hp, hg, hb, if_pos (show 2 % 2 = 0 from rfl)]
    rfl
  · have hlm : listMean (([zeroBatch] : List Batch).map Batch.lossVal) = 0 := by
      norm_num [listMean, zeroBatch]
    simp only [val_one_epoch, hlm, if_neg (show ¬1 % 2 = 0 by decide)]

/-- C10 amended: whenever the validation pass returns a value, that value
is the arithmetic mean of the per-batch losses, on metric and non-metric
epochs alike — the cadence branch determines the log lines (and whether
the metrics computation can abort the pass), never a returned value, and
any two returning epochs of the same data return the same value. -/
theorem claim_C10 (bs : List Batch) (epoch : ℕ) (cfg : Config)
    (logs : List LogEntry) (r : ℚ)
    (h : val_one_epoch bs epoch cfg = some (logs, r)) :
    r = listMean (bs.map Batch.lossVal)
    ∧ (epoch % cfg.val_interval ≠ 0 →
        logs = [LogEntry.valLoss epoch (listMean (bs.map Batch.lossVal))])
    ∧ ∀ (epoch2 : ℕ) (logs2 : List LogEntry) (r2 : ℚ),
        val_one_epoch bs epoch2 cfg = some (logs2, r2) → r2 = r := by
  have key : ∀ (e : ℕ) (L : List LogEntry) (q : ℚ),
      val_one_epoch bs e cfg = some (L, q) → q = listMean (bs.map Batch.lossVal) := by
    intro e L q hq
    simp only [val_one_epoch] at hq
    split at hq
    · revert hq
      cases hsc : statsOfConfusion (confusion_matrix (binarize (pooledGts bs) (1 / 2))
          (binarize (pooledPreds bs) cfg.threshold) none) <;> intro hq
      · cases hq
      · cases hq
        rfl
    · cases hq
      rfl
  have h1 := key epoch logs r h
  refine ⟨h1, ?_, fun e2 L2 q2 h2 => (key e2 L2 q2 h2).trans h1.symm⟩
  intro hne
  simp only [val_one_epoch, if_neg hne] at h
  cases h
  rfl

/-- C10 witness: a concrete non-cadence validation epoch returns the loss
mean 0. -/
theorem claim_C10_witness :
    (0 : ℚ) = listMean (([zeroBatch] : List Batch).map Batch.lossVal) := by
  have hlm : listMean (([zeroBatch] : List Batch).map Batch.lossVal) = 0 := by
    norm_num [listMean, zeroBatch]
  have hv : val_one_epoch [zeroBatch] 1 ⟨1 / 2, 2⟩ = some ([LogEntry.valLoss 1 0], 0) := by
    simp only [val_one_epoch, hlm, if_neg (show ¬1 % 2 = 0 by decide)]
  exact (claim_C10 [zeroBatch] 1 ⟨1 / 2, 2⟩ [LogEntry.valLoss 1 0] 0 hv).1

end Engine
